import Mathlib

/-!
Verification of the rage-pad audio engine (`audio-engine/src`), shallowly
embedded in Lean.  Samples are modelled as rationals (`ℚ`) standing in for
`f32`; machine indices are `ℕ` with explicit `% capacity` where the code
wraps.  Each definition mirrors one function of the Rust source:

* `RingBuffer.available`, `RingBuffer.push`, `RingBuffer.pop` — `mixer.rs`,
  the single-producer/single-consumer sample channel.
* `FilePlayback.mix_into` — `mixer.rs`, the file playback source.
* `MixerModel.renderCallback` — the output-stream callback built in
  `MixerState::start_output` (locks modelled as always acquired, i.e. the
  uncontended path; the OS stream machinery is external).
* `MixerModel.play_file`, `stop`, `pause`, `resume`, `set_volume`,
  `is_playing`, `start_capture`, `start_output` — the `MixerState` methods.
  External services (device directory, stream construction, file decoding)
  are parameters gathered in `Env`.
* `handle_command`, `processLines` — `main.rs` command dispatch and the
  line-oriented driver loop (stdin/stdout modelled as lists).
-/

set_option autoImplicit false

namespace RagePad

/-- Rust `f32::clamp`: `lo` if below, `hi` if above, the value otherwise. -/
def clampQ (x lo hi : ℚ) : ℚ :=
  if x < lo then lo else if x > hi then hi else x

/-- Rust `f32::EPSILON` (2⁻²³), used by the render callback's volume test. -/
def f32Epsilon : ℚ := 1 / 2 ^ 23

/-! ## Ring buffer (`mixer.rs`, `struct RingBuffer`) -/

/-- The sample channel: a fixed backing store and two cursors.  The Rust
struct keeps the cursors in `AtomicUsize`; both are always reduced modulo
the capacity by `push`/`pop`. -/
structure RingBuffer where
  buf : List ℚ
  write : ℕ
  read : ℕ
  deriving DecidableEq

/-- Number of samples available for reading (`RingBuffer::available`). -/
def RingBuffer.available (rb : RingBuffer) : ℕ :=
  if rb.write ≥ rb.read then rb.write - rb.read
  else rb.buf.length - rb.read + rb.write

/-- The write loop of `RingBuffer::push`: store each sample at the write
cursor and advance it modulo the capacity (`cap` is read once, as in the
Rust code). -/
def pushAux (cap : ℕ) : List ℚ → ℕ → List ℚ → List ℚ × ℕ
  | buf, w, [] => (buf, w)
  | buf, w, s :: rest => pushAux cap (buf.set w s) ((w + 1) % cap) rest

/-- `RingBuffer::push`: run the write loop, then publish the write cursor.
The read cursor is untouched (drops oldest samples on overflow). -/
def RingBuffer.push (rb : RingBuffer) (samples : List ℚ) : RingBuffer :=
  let p := pushAux rb.buf.length rb.buf rb.write samples
  ⟨p.1, p.2, rb.read⟩

/-- The read loop of `RingBuffer::pop`: overwrite the first `n` slots of
`out` with the samples at the read cursor, advancing it modulo the
capacity; the rest of `out` is left as it was. -/
def popAux (buf : List ℚ) : ℕ → ℕ → List ℚ → List ℚ × ℕ
  | r, 0, out => (out, r)
  | r, _ + 1, [] => ([], r)
  | r, n + 1, _ :: rest =>
      let p := popAux buf ((r + 1) % buf.length) n rest
      (buf.getD r 0 :: p.1, p.2)

/-- `RingBuffer::pop`: read `min out.length available` samples into the
front of `out`, publish the read cursor, and return the count. -/
def RingBuffer.pop (rb : RingBuffer) (out : List ℚ) : RingBuffer × List ℚ × ℕ :=
  let n := min out.length rb.available
  let p := popAux rb.buf rb.read n out
  (⟨rb.buf, rb.write, p.2⟩, p.1, n)

/-! ## File playback source (`mixer.rs`, `struct FilePlayback`) -/

/-- A decoded file: its sample sequence, read position and per-file gain. -/
structure FilePlayback where
  samples : List ℚ
  position : ℕ
  volume : ℚ
  deriving DecidableEq

/-- `FilePlayback::mix_into`: for each output slot, if the sequence is
exhausted return `false` at once (remaining slots untouched); otherwise add
`sample * volume` to the slot and advance the position.  Returns `true`
when every slot was served. -/
def FilePlayback.mix_into : FilePlayback → List ℚ → FilePlayback × List ℚ × Bool
  | fp, [] => (fp, [], true)
  | fp, s :: rest =>
      if fp.position ≥ fp.samples.length then (fp, s :: rest, false)
      else
        let s' := s + fp.samples.getD fp.position 0 * fp.volume
        let p := FilePlayback.mix_into { fp with position := fp.position + 1 } rest
        (p.1, s' :: p.2.1, p.2.2)

/-! ## Mixer state (`mixer.rs`, `struct MixerState`) -/

/-- The top-level mixer aggregate.  Stream handles are opaque OS resources;
the model keeps only whether one is held (`Option<Stream>` ↦ `Bool`).
`Arc`/`Mutex`/atomic wrappers are dropped: the model is the uncontended
sequential semantics. -/
structure MixerModel where
  input_device_name : Option String
  output_device_name : Option String
  playing : Bool
  paused : Bool
  volume : ℚ
  capture_stream : Bool
  output_stream : Bool
  ring : RingBuffer
  file_playback : Option FilePlayback
  deriving DecidableEq

/-- `MixerState::new`: idle mixer, no streams, ring capacity 48000. -/
def MixerModel.new : MixerModel where
  input_device_name := none
  output_device_name := none
  playing := false
  paused := false
  volume := 1
  capture_stream := false
  output_stream := false
  ring := ⟨List.replicate 48000 0, 0, 0⟩
  file_playback := none

/-- The device directory (`devices.rs`), modelled by the name lists the
host reports and whether default endpoints exist.  `find_input_device` /
`find_output_device` match by exact string equality, so membership of the
name list is all that matters. -/
structure Directory where
  inputs : List String
  outputs : List String
  has_default_input : Bool
  has_default_output : Bool

/-- External collaborators of the mixer: the device directory, the outcome
of building-and-starting a capture/output stream (`cpal` calls), and the
decode service (`File::open` + `rodio::Decoder` + i16→f32 normalisation),
which yields the normalised sample sequence or a formatted error. -/
structure Env where
  dir : Directory
  capture_build : Except String Unit
  output_build : Except String Unit
  decode : String → Except String (List ℚ)

/-- `MixerState::start_capture`: drop the old stream first, resolve the
configured (or default) input device, then build and start the stream. -/
def MixerModel.start_capture (m : MixerModel) (env : Env) :
    MixerModel × Except String Unit :=
  let m1 := { m with capture_stream := false }
  match m1.input_device_name with
  | some name =>
      if env.dir.inputs.contains name then
        match env.capture_build with
        | .ok _ => ({ m1 with capture_stream := true }, .ok ())
        | .error e => (m1, .error e)
      else (m1, .error ("Input device not found: " ++ name))
  | none =>
      if env.dir.has_default_input then
        match env.capture_build with
        | .ok _ => ({ m1 with capture_stream := true }, .ok ())
        | .error e => (m1, .error e)
      else (m1, .error "No default input device available")

/-- `MixerState::start_output`: symmetric to `start_capture` for the
render side. -/
def MixerModel.start_output (m : MixerModel) (env : Env) :
    MixerModel × Except String Unit :=
  let m1 := { m with output_stream := false }
  match m1.output_device_name with
  | some name =>
      if env.dir.outputs.contains name then
        match env.output_build with
        | .ok _ => ({ m1 with output_stream := true }, .ok ())
        | .error e => (m1, .error e)
      else (m1, .error ("Output device not found: " ++ name))
  | none =>
      if env.dir.has_default_output then
        match env.output_build with
        | .ok _ => ({ m1 with output_stream := true }, .ok ())
        | .error e => (m1, .error e)
      else (m1, .error "No default output device available")

/-- Steps 1–2 of the render callback body in `MixerState::start_output`:
pop mic samples from the ring into the zeroed buffer of length `n`, then,
if the playing flag is set and a file is present, mix it on top, clearing
the slot when `mix_into` reports exhaustion.  Returns the new ring, the
new playback slot and the buffer contents before volume/clamping. -/
def postMix (m : MixerModel) (n : ℕ) : (RingBuffer × Option FilePlayback) × List ℚ :=
  let pr := m.ring.pop (List.replicate n 0)
  if m.playing then
    match m.file_playback with
    | some fp =>
        let mr := fp.mix_into pr.2.1
        ((pr.1, if mr.2.2 then some mr.1 else none), mr.2.1)
    | none => ((pr.1, none), pr.2.1)
  else ((pr.1, m.file_playback), pr.2.1)

/-- One invocation of the output-stream callback (`MixerState::start_output`):
zero the buffer; if paused return silence; pop mic samples; mix the file on
top; apply master volume unless it is within `f32::EPSILON` of 1; clamp
every sample to [-1, 1].  The incoming `data` only contributes its length,
since the callback zeroes the buffer first. -/
def MixerModel.renderCallback (m : MixerModel) (data : List ℚ) :
    MixerModel × List ℚ :=
  if m.paused then (m, List.replicate data.length 0)
  else
    let st := postMix m data.length
    let withVol :=
      if |m.volume - 1| > f32Epsilon then st.2.map (fun s => s * m.volume) else st.2
    ({ m with ring := st.1.1, file_playback := st.1.2 },
     withVol.map (fun s => clampQ s (-1) 1))

/-- `MixerState::play_file`: decode the file (external service); on failure
return the error having touched nothing; on success install a fresh
playback source with clamped per-file gain and set the playing flag. -/
def MixerModel.play_file (m : MixerModel) (env : Env) (path : String)
    (file_volume : ℚ) : MixerModel × Except String Unit :=
  match env.decode path with
  | .error e => (m, .error e)
  | .ok samples =>
      ({ m with
          file_playback := some ⟨samples, 0, clampQ file_volume 0 1⟩,
          playing := true }, .ok ())

/-- `MixerState::stop`: clear the playing flag and the playback slot. -/
def MixerModel.stop (m : MixerModel) : MixerModel :=
  { m with playing := false, file_playback := none }

/-- `MixerState::pause`: set the paused flag. -/
def MixerModel.pause (m : MixerModel) : MixerModel :=
  { m with paused := true }

/-- `MixerState::resume`: clear the paused flag. -/
def MixerModel.resume (m : MixerModel) : MixerModel :=
  { m with paused := false }

/-- `MixerState::set_volume`: clamp to [0, 1] and store. -/
def MixerModel.set_volume (m : MixerModel) (vol : ℚ) : MixerModel :=
  { m with volume := clampQ vol 0 1 }

/-- `MixerState::is_playing`: `false` if the flag is down; otherwise peek
at the slot and lazily reconcile the flag when the slot is empty. -/
def MixerModel.is_playing (m : MixerModel) : MixerModel × Bool :=
  if m.playing then
    match m.file_playback with
    | none => ({ m with playing := false }, false)
    | some _ => (m, true)
  else (m, false)

/-! ## Command protocol (`protocol.rs`) and driver (`main.rs`) -/

/-- Inbound commands (`protocol.rs`, `enum Command`).  The `play` default
volume of 1.0 is applied by serde during parsing, which the model leaves
external. -/
inductive Command
  | list_devices
  | set_input_device (device_name : String)
  | set_output_device (device_name : String)
  | play (file_path : String) (volume : ℚ)
  | stop
  | pause
  | resume
  | set_volume (volume : ℚ)
  | get_status
  | shutdown
  deriving DecidableEq

/-- Outbound responses (`protocol.rs`, `enum Response`). -/
inductive Response
  | devices (input : List String) (output : List String)
  | ok
  | status (playing : Bool) (paused : Bool) (volume : ℚ)
      (input_device : Option String) (output_device : Option String)
  | error (message : String)
  deriving DecidableEq

/-- `handle_command` (`main.rs`): dispatch one command against the mixer;
`none` as response means `Shutdown` was received. -/
def handle_command (env : Env) (m : MixerModel) :
    Command → MixerModel × Option Response
  | .list_devices => (m, some (.devices env.dir.inputs env.dir.outputs))
  | .set_input_device device_name =>
      let r := MixerModel.start_capture { m with input_device_name := some device_name } env
      match r.2 with
      | .ok _ => (r.1, some .ok)
      | .error e => (r.1, some (.error e))
  | .set_output_device device_name =>
      let r := MixerModel.start_output { m with output_device_name := some device_name } env
      match r.2 with
      | .ok _ => (r.1, some .ok)
      | .error e => (r.1, some (.error e))
  | .play file_path volume =>
      let r := m.play_file env file_path volume
      match r.2 with
      | .ok _ => (r.1, some .ok)
      | .error e => (r.1, some (.error e))
  | .stop => (m.stop, some .ok)
  | .pause => (m.pause, some .ok)
  | .resume => (m.resume, some .ok)
  | .set_volume volume => (m.set_volume volume, some .ok)
  | .get_status =>
      let r := m.is_playing
      (r.1, some (.status r.2 r.1.paused r.1.volume
        r.1.input_device_name r.1.output_device_name))
  | .shutdown => (m, none)

/-- One line of control input as the driver sees it after reading and
(de)serialising: blank (skipped), malformed JSON (serde error text), or a
parsed command. -/
inductive InLine
  | blank
  | malformed (err : String)
  | cmd (c : Command)

/-- The driver loop of `main` (`main.rs`): skip blank lines, answer
malformed lines with one `Invalid JSON command` error and continue,
dispatch parsed commands, and on `Shutdown` acknowledge with `ok` and end
the session. -/
def processLines (env : Env) : MixerModel → List InLine → List Response
  | _, [] => []
  | m, .blank :: rest => processLines env m rest
  | m, .malformed e :: rest =>
      Response.error ("Invalid JSON command: " ++ e) :: processLines env m rest
  | m, .cmd c :: rest =>
      let r := handle_command env m c
      match r.2 with
      | some resp => resp :: processLines env r.1 rest
      | none => [Response.ok]

/-! ## Supporting lemmas -/

lemma clampQ_mem (x lo hi : ℚ) (h : lo ≤ hi) :
    lo ≤ clampQ x lo hi ∧ clampQ x lo hi ≤ hi := by
  unfold clampQ
  split_ifs with h1 h2
  · exact ⟨le_refl lo, h⟩
  · exact ⟨h, le_refl hi⟩
  · exact ⟨le_of_not_lt h1, le_of_not_lt h2⟩

lemma getD_set_ne (l : List ℚ) (w i : ℕ) (a : ℚ) (h : w ≠ i) :
    (l.set w a).getD i 0 = l.getD i 0 := by
  rw [List.getD_eq_getElem?_getD, List.getD_eq_getElem?_getD, List.getElem?_set_ne h]

lemma getD_set_self (l : List ℚ) (w : ℕ) (a : ℚ) (h : w < l.length) :
    (l.set w a).getD w 0 = a := by
  rw [List.getD_eq_getElem?_getD, List.getElem?_set_self h]
  rfl

lemma add_mod_ne (cap w d : ℕ) (hd : 0 < d) (hdc : d < cap) :
    (w + d) % cap ≠ w % cap := by
  intro h
  have h2 : d ≡ 0 [MOD cap] :=
    Nat.ModEq.add_left_cancel (Nat.ModEq.refl w) (by simpa [Nat.ModEq] using h)
  have h3 : d % cap = 0 % cap := h2
  rw [Nat.mod_eq_of_lt hdc, Nat.zero_mod] at h3
  omega

/-- The samples a reader starting at cursor `r` sees: positions
`r, r+1, …` modulo the capacity.  Used to state what `push` wrote and what
`pop` returns. -/
def readSeg (buf : List ℚ) (r n : ℕ) : List ℚ :=
  (List.range n).map fun i => buf.getD ((r + i) % buf.length) 0

lemma readSeg_zero (buf : List ℚ) (r : ℕ) : readSeg buf r 0 = [] := rfl

lemma readSeg_succ (buf : List ℚ) (r n : ℕ) (hr : r < buf.length) :
    readSeg buf r (n + 1) = buf.getD r 0 :: readSeg buf ((r + 1) % buf.length) n := by
  unfold readSeg
  rw [List.range_succ_eq_map, List.map_cons, List.map_map]
  congr 1
  · rw [Nat.add_zero, Nat.mod_eq_of_lt hr]
  · apply List.map_congr_left
    intro i _
    simp only [Function.comp_apply]
    congr 1
    rw [Nat.mod_add_mod]
    congr 1
    omega

lemma range_map_getD (l : List ℚ) :
    (List.range l.length).map (fun i => l.getD i 0) = l := by
  induction l with
  | nil => rfl
  | cons a t ih =>
      rw [List.length_cons, List.range_succ_eq_map, List.map_cons, List.map_map]
      congr 1

lemma popAux_eq (buf : List ℚ) :
    ∀ (n r : ℕ) (out : List ℚ), r < buf.length → n ≤ out.length →
      popAux buf r n out = (readSeg buf r n ++ out.drop n, (r + n) % buf.length) := by
  intro n
  induction n with
  | zero =>
      intro r out hr _
      simp [popAux, readSeg_zero, Nat.mod_eq_of_lt hr]
  | succ n ih =>
      intro r out hr hn
      match out with
      | [] => simp at hn
      | s :: rest =>
          have hlen : 0 < buf.length := Nat.lt_of_le_of_lt (Nat.zero_le r) hr
          have hr' : (r + 1) % buf.length < buf.length := Nat.mod_lt _ hlen
          have hn' : n ≤ rest.length := by simpa using hn
          simp only [popAux, ih ((r + 1) % buf.length) rest hr' hn']
          rw [readSeg_succ buf r n hr]
          simp only [List.drop_succ_cons, List.cons_append, Prod.mk.injEq, true_and]
          rw [Nat.mod_add_mod]
          congr 1
          omega

lemma pushAux_length (cap : ℕ) :
    ∀ (samples buf : List ℚ) (w : ℕ), (pushAux cap buf w samples).1.length = buf.length := by
  intro samples
  induction samples with
  | nil => intro buf w; rfl
  | cons s rest ih =>
      intro buf w
      rw [pushAux, ih]
      simp

lemma pushAux_write (cap : ℕ) (hcap : 0 < cap) :
    ∀ (samples buf : List ℚ) (w : ℕ), w < cap →
      (pushAux cap buf w samples).2 = (w + samples.length) % cap := by
  intro samples
  induction samples with
  | nil =>
      intro buf w hw
      simp [pushAux, Nat.mod_eq_of_lt hw]
  | cons s rest ih =>
      intro buf w hw
      rw [pushAux, ih _ _ (Nat.mod_lt _ hcap), Nat.mod_add_mod]
      congr 1
      simp only [List.length_cons]
      omega

lemma pushAux_untouched (cap : ℕ) (hcap : 0 < cap) :
    ∀ (samples buf : List ℚ) (w i : ℕ), w < cap →
      (∀ j, j < samples.length → (w + j) % cap ≠ i) →
      (pushAux cap buf w samples).1.getD i 0 = buf.getD i 0 := by
  intro samples
  induction samples with
  | nil => intro buf w i _ _; rfl
  | cons s rest ih =>
      intro buf w i hw hj
      have hcond : ∀ j, j < rest.length → (((w + 1) % cap) + j) % cap ≠ i := by
        intro j hjr
        rw [Nat.mod_add_mod, show w + 1 + j = w + (j + 1) from by omega]
        exact hj (j + 1) (by simp only [List.length_cons]; omega)
      rw [pushAux, ih (buf.set w s) ((w + 1) % cap) i (Nat.mod_lt _ hcap) hcond]
      apply getD_set_ne
      have h0 := hj 0 (by simp)
      rwa [Nat.add_zero, Nat.mod_eq_of_lt hw] at h0

lemma pushAux_getD (cap : ℕ) (hcap : 0 < cap) :
    ∀ (samples buf : List ℚ) (w : ℕ), w < cap → buf.length = cap → samples.length ≤ cap →
      ∀ j, j < samples.length →
        (pushAux cap buf w samples).1.getD ((w + j) % cap) 0 = samples.getD j 0 := by
  intro samples
  induction samples with
  | nil => intro buf w _ _ _ j hj; simp at hj
  | cons s rest ih =>
      intro buf w hw hlen hle j hj
      match j with
      | 0 =>
          rw [pushAux, show (w + 0) % cap = w from by rw [Nat.add_zero, Nat.mod_eq_of_lt hw]]
          have hcond : ∀ j', j' < rest.length → (((w + 1) % cap) + j') % cap ≠ w := by
            intro j' hj'
            rw [Nat.mod_add_mod, show w + 1 + j' = w + (j' + 1) from by omega]
            have h2 : j' + 1 < cap := by
              simp only [List.length_cons] at hle
              omega
            have h3 := add_mod_ne cap w (j' + 1) (Nat.succ_pos j') h2
            rwa [Nat.mod_eq_of_lt hw] at h3
          rw [pushAux_untouched cap hcap rest (buf.set w s) ((w + 1) % cap) w
            (Nat.mod_lt _ hcap) hcond]
          rw [getD_set_self buf w s (by omega)]
          rfl
      | j' + 1 =>
          rw [pushAux, show (w + (j' + 1)) % cap = (((w + 1) % cap) + j') % cap from by
            rw [Nat.mod_add_mod]; congr 1; omega]
          rw [ih (buf.set w s) ((w + 1) % cap) (Nat.mod_lt _ hcap)
            (by simpa using hlen)
            (by simp only [List.length_cons] at hle; omega)
            j' (by simp only [List.length_cons] at hj; omega)]
          rfl

lemma push_from_empty (rb : RingBuffer) (samples : List ℚ)
    (hw : rb.write = rb.read) (hr : rb.read < rb.buf.length)
    (hk : samples.length < rb.buf.length) :
    (rb.push samples).buf.length = rb.buf.length ∧
    (rb.push samples).read = rb.read ∧
    (rb.push samples).write = (rb.read + samples.length) % rb.buf.length ∧
    (rb.push samples).available = samples.length ∧
    readSeg (rb.push samples).buf rb.read samples.length = samples := by
  have hcap : 0 < rb.buf.length := Nat.lt_of_le_of_lt (Nat.zero_le _) hr
  have hlen : (rb.push samples).buf.length = rb.buf.length :=
    pushAux_length rb.buf.length samples rb.buf rb.write
  have hread : (rb.push samples).read = rb.read := rfl
  have hwrite : (rb.push samples).write = (rb.read + samples.length) % rb.buf.length := by
    show (pushAux rb.buf.length rb.buf rb.write samples).2 = _
    rw [pushAux_write rb.buf.length hcap samples rb.buf rb.write (hw ▸ hr), hw]
  have hgetD : ∀ j, j < samples.length →
      (rb.push samples).buf.getD ((rb.read + j) % rb.buf.length) 0 = samples.getD j 0 := by
    intro j hj
    show (pushAux rb.buf.length rb.buf rb.write samples).1.getD _ 0 = _
    rw [← hw]
    exact pushAux_getD rb.buf.length hcap samples rb.buf rb.write (hw ▸ hr) rfl
      (Nat.le_of_lt hk) j hj
  refine ⟨hlen, hread, hwrite, ?_, ?_⟩
  · unfold RingBuffer.available
    rw [hread, hwrite, hlen]
    rcases Nat.lt_or_ge (rb.read + samples.length) rb.buf.length with h | h
    · rw [Nat.mod_eq_of_lt h]
      split_ifs <;> omega
    · have h2 : (rb.read + samples.length) % rb.buf.length
          = rb.read + samples.length - rb.buf.length := by
        rw [Nat.mod_eq_sub_mod h, Nat.mod_eq_of_lt (by omega)]
      rw [h2]
      split_ifs <;> omega
  · unfold readSeg
    rw [hlen]
    calc (List.range samples.length).map
          (fun i => (rb.push samples).buf.getD ((rb.read + i) % rb.buf.length) 0)
        = (List.range samples.length).map (fun i => samples.getD i 0) := by
          apply List.map_congr_left
          intro i hi
          exact hgetD i (List.mem_range.mp hi)
      _ = samples := range_map_getD samples

/-! ## Claim theorems -/

/-- C4: `pop` returns `min out.length available` (hence at most both), fills
the prefix of `out` with the oldest available samples (the read cursor's
segment), leaves the rest of `out` untouched, never changes the backing
store or write cursor, and on an empty channel returns 0 leaving `out`
entirely unmodified and the channel as it was. -/
theorem pop_spec (rb : RingBuffer) (out : List ℚ) (hr : rb.read < rb.buf.length) :
    (rb.pop out).2.2 = min out.length rb.available ∧
    (rb.pop out).2.2 ≤ out.length ∧
    (rb.pop out).2.2 ≤ rb.available ∧
    (rb.pop out).2.1 =
      readSeg rb.buf rb.read ((rb.pop out).2.2) ++ out.drop ((rb.pop out).2.2) ∧
    (rb.pop out).1.buf = rb.buf ∧
    (rb.pop out).1.write = rb.write ∧
    (rb.available = 0 →
      (rb.pop out).2.2 = 0 ∧ (rb.pop out).2.1 = out ∧ (rb.pop out).1 = rb) := by
  have hpop := popAux_eq rb.buf (min out.length rb.available) rb.read out hr
    (Nat.min_le_left _ _)
  refine ⟨rfl, Nat.min_le_left _ _, Nat.min_le_right _ _, ?_, rfl, rfl, ?_⟩
  · show (popAux rb.buf rb.read (min out.length rb.available) out).1 = _
    rw [hpop]
    rfl
  · intro h0
    have hn : min out.length rb.available = 0 := by omega
    refine ⟨hn, ?_, ?_⟩
    · show (popAux rb.buf rb.read (min out.length rb.available) out).1 = out
      rw [hn]
      rfl
    · show (⟨rb.buf, rb.write,
          (popAux rb.buf rb.read (min out.length rb.available) out).2⟩ : RingBuffer) = rb
      rw [hn]
      rfl

/-- C4 witness: a channel of capacity 3 holding two samples, popped into a
three-slot buffer. -/
theorem pop_spec_witness :
    ((⟨[5, 7, 9], 2, 0⟩ : RingBuffer).read < (⟨[5, 7, 9], 2, 0⟩ : RingBuffer).buf.length) ∧
    (((⟨[5, 7, 9], 2, 0⟩ : RingBuffer).pop [0, 0, 0]).2.2 =
        min ([0, 0, 0] : List ℚ).length (⟨[5, 7, 9], 2, 0⟩ : RingBuffer).available ∧
      ((⟨[5, 7, 9], 2, 0⟩ : RingBuffer).pop [0, 0, 0]).2.2 ≤ ([0, 0, 0] : List ℚ).length ∧
      ((⟨[5, 7, 9], 2, 0⟩ : RingBuffer).pop [0, 0, 0]).2.2 ≤
        (⟨[5, 7, 9], 2, 0⟩ : RingBuffer).available ∧
      ((⟨[5, 7, 9], 2, 0⟩ : RingBuffer).pop [0, 0, 0]).2.1 =
        readSeg [5, 7, 9] 0 (((⟨[5, 7, 9], 2, 0⟩ : RingBuffer).pop [0, 0, 0]).2.2) ++
          ([0, 0, 0] : List ℚ).drop (((⟨[5, 7, 9], 2, 0⟩ : RingBuffer).pop [0, 0, 0]).2.2) ∧
      ((⟨[5, 7, 9], 2, 0⟩ : RingBuffer).pop [0, 0, 0]).1.buf = [5, 7, 9] ∧
      ((⟨[5, 7, 9], 2, 0⟩ : RingBuffer).pop [0, 0, 0]).1.write = 2 ∧
      ((⟨[5, 7, 9], 2, 0⟩ : RingBuffer).available = 0 →
        ((⟨[5, 7, 9], 2, 0⟩ : RingBuffer).pop [0, 0, 0]).2.2 = 0 ∧
        ((⟨[5, 7, 9], 2, 0⟩ : RingBuffer).pop [0, 0, 0]).2.1 = [0, 0, 0] ∧
        ((⟨[5, 7, 9], 2, 0⟩ : RingBuffer).pop [0, 0, 0]).1 = ⟨[5, 7, 9], 2, 0⟩)) :=
  ⟨by decide, pop_spec ⟨[5, 7, 9], 2, 0⟩ [0, 0, 0] (by decide)⟩

/-- C2 counterexample: pushing a total of exactly the capacity (here 2)
into an empty channel wraps the write cursor back onto the read cursor, so
`available` reports 0 and the following `pop` returns nothing — the pushed
samples `[5, 7]` are not returned, contradicting the claim's "does not
exceed the channel's capacity" bound. -/
theorem ring_push_capacity_cex :
    (((⟨[0, 0], 0, 0⟩ : RingBuffer).push [5, 7]).pop [0, 0]).2.2 = 0 ∧
    (((⟨[0, 0], 0, 0⟩ : RingBuffer).push [5, 7]).pop [0, 0]).2.1 = [0, 0] ∧
    ([0, 0] : List ℚ) ≠ [5, 7] ∧
    ([5, 7] : List ℚ).length = (⟨[0, 0], 0, 0⟩ : RingBuffer).buf.length := by
  refine ⟨by decide, by decide, by decide, by decide⟩

/-- One `push` from an empty channel followed by a `pop` returns the
pushed samples; the sequence-of-pushes claim reduces to this via
`push_append`. -/
lemma push_once_pop_exact (rb : RingBuffer) (samples out : List ℚ)
    (hw : rb.write = rb.read) (hr : rb.read < rb.buf.length)
    (hk : samples.length < rb.buf.length) (hout : samples.length ≤ out.length) :
    ((rb.push samples).pop out).2.2 = samples.length ∧
    ((rb.push samples).pop out).2.1 = samples ++ out.drop samples.length := by
  obtain ⟨hlen, hread, _, havail, hseg⟩ := push_from_empty rb samples hw hr hk
  have hmin : min out.length (rb.push samples).available = samples.length := by
    rw [havail]
    exact Nat.min_eq_right hout
  have hpop := popAux_eq (rb.push samples).buf samples.length (rb.push samples).read out
    (by rw [hread, hlen]; exact hr) hout
  constructor
  · show min out.length (rb.push samples).available = samples.length
    exact hmin
  · show (popAux (rb.push samples).buf (rb.push samples).read
        (min out.length (rb.push samples).available) out).1 = _
    rw [hmin, hpop, hread, hseg]

lemma pushAux_append (cap : ℕ) : ∀ (a b buf : List ℚ) (w : ℕ),
    pushAux cap (pushAux cap buf w a).1 (pushAux cap buf w a).2 b
      = pushAux cap buf w (a ++ b) := by
  intro a
  induction a with
  | nil => intro b buf w; rfl
  | cons s rest ih => intro b buf w; exact ih b (buf.set w s) ((w + 1) % cap)

/-- Two successive `push` calls write exactly what one `push` of the
concatenation writes: `RingBuffer::push` reads the capacity afresh, but
pushing preserves the backing store's length, so the write loops chain. -/
lemma push_append (rb : RingBuffer) (a b : List ℚ) :
    (rb.push a).push b = rb.push (a ++ b) := by
  unfold RingBuffer.push
  simp only [pushAux_length]
  rw [pushAux_append]

/-- A sequence of `push` calls, one per batch of captured samples. -/
def pushRun (rb : RingBuffer) (batches : List (List ℚ)) : RingBuffer :=
  batches.foldl RingBuffer.push rb

lemma pushRun_eq_push_flatten : ∀ (batches : List (List ℚ)) (rb : RingBuffer),
    pushRun rb batches = rb.push batches.flatten := by
  intro batches
  induction batches with
  | nil => intro rb; rfl
  | cons x xs ih =>
      intro rb
      show pushRun (rb.push x) xs = _
      rw [ih (rb.push x), push_append, List.flatten_cons]

/-- C2 as amended: for every sequence of `push` calls whose total sample
count is strictly less than the capacity, starting from an empty channel,
a subsequent `pop` with a buffer at least that long returns exactly the
pushed samples, in order, with no loss. -/
theorem ring_push_seq_pop_exact (rb : RingBuffer) (batches : List (List ℚ))
    (out : List ℚ) (hw : rb.write = rb.read) (hr : rb.read < rb.buf.length)
    (hk : (batches.map List.length).sum < rb.buf.length)
    (hout : (batches.map List.length).sum ≤ out.length) :
    ((pushRun rb batches).pop out).2.2 = (batches.map List.length).sum ∧
    ((pushRun rb batches).pop out).2.1 =
      batches.flatten ++ out.drop ((batches.map List.length).sum) := by
  have hj : batches.flatten.length = (batches.map List.length).sum :=
    List.length_flatten batches
  rw [pushRun_eq_push_flatten]
  rw [← hj] at hk hout ⊢
  exact push_once_pop_exact rb batches.flatten out hw hr hk hout

/-- C2 witness: an empty capacity-4 channel receives two pushes (one and
two samples) and a `pop` returns all three in order. -/
theorem ring_push_seq_pop_exact_witness :
    ((⟨[0, 0, 0, 0], 1, 1⟩ : RingBuffer).write = (⟨[0, 0, 0, 0], 1, 1⟩ : RingBuffer).read) ∧
    ((⟨[0, 0, 0, 0], 1, 1⟩ : RingBuffer).read < (⟨[0, 0, 0, 0], 1, 1⟩ : RingBuffer).buf.length) ∧
    ((([[4], [6, 8]] : List (List ℚ)).map List.length).sum <
      (⟨[0, 0, 0, 0], 1, 1⟩ : RingBuffer).buf.length) ∧
    ((([[4], [6, 8]] : List (List ℚ)).map List.length).sum ≤ ([0, 0, 0] : List ℚ).length) ∧
    (((pushRun ⟨[0, 0, 0, 0], 1, 1⟩ [[4], [6, 8]]).pop [0, 0, 0]).2.2 =
        (([[4], [6, 8]] : List (List ℚ)).map List.length).sum ∧
      ((pushRun ⟨[0, 0, 0, 0], 1, 1⟩ [[4], [6, 8]]).pop [0, 0, 0]).2.1 =
        ([[4], [6, 8]] : List (List ℚ)).flatten ++
          ([0, 0, 0] : List ℚ).drop ((([[4], [6, 8]] : List (List ℚ)).map List.length).sum)) :=
  ⟨rfl, by decide, by decide, by decide,
    ring_push_seq_pop_exact ⟨[0, 0, 0, 0], 1, 1⟩ [[4], [6, 8]] [0, 0, 0]
      rfl (by decide) (by decide) (by decide)⟩

/-! ## File playback claims -/

lemma mix_into_exhausted (fp : FilePlayback) (s : ℚ) (rest : List ℚ)
    (h : fp.samples.length ≤ fp.position) :
    fp.mix_into (s :: rest) = (fp, s :: rest, false) := by
  rw [FilePlayback.mix_into, if_pos h]

lemma mix_into_fill (out : List ℚ) : ∀ (fp : FilePlayback),
    fp.position + out.length ≤ fp.samples.length →
    fp.mix_into out =
      ({ fp with position := fp.position + out.length },
       List.zipWith (fun o smp => o + smp * fp.volume) out
         ((fp.samples.drop fp.position).take out.length),
       true) := by
  induction out with
  | nil =>
      intro fp _
      rw [FilePlayback.mix_into]
      rfl
  | cons s rest ih =>
      intro fp h
      have hpos : fp.position < fp.samples.length := by
        simp only [List.length_cons] at h
        omega
      rw [FilePlayback.mix_into, if_neg (by omega)]
      rw [ih { fp with position := fp.position + 1 }
        (by simp only [List.length_cons] at h ⊢; omega)]
      rw [List.drop_eq_getElem_cons hpos, List.getD_eq_getElem fp.samples 0 hpos]
      simp only [List.length_cons, List.take_succ_cons, List.zipWith_cons_cons, Prod.mk.injEq]
      refine ⟨?_, trivial⟩
      rw [show fp.position + 1 + rest.length = fp.position + (rest.length + 1) from by omega]

/-- A sequence of `mix_into` calls: feed each buffer in turn, collecting
the resulting buffers and returned flags along with the final source. -/
def mixRun : FilePlayback → List (List ℚ) → FilePlayback × List (List ℚ × Bool)
  | fp, [] => (fp, [])
  | fp, out :: rest =>
      let r := fp.mix_into out
      let rr := mixRun r.1 rest
      (rr.1, (r.2.1, r.2.2) :: rr.2)

/-- The outcome the spec describes for a run that stays within the sample
sequence: each call reports `true` and adds `sample * volume` onto the
buffer contents already present. -/
def mixExpected (smps : List ℚ) (vol : ℚ) : ℕ → List (List ℚ) → List (List ℚ × Bool)
  | _, [] => []
  | p, out :: rest =>
      (List.zipWith (fun o smp => o + smp * vol) out ((smps.drop p).take out.length), true)
        :: mixExpected smps vol (p + out.length) rest

lemma mixRun_fill : ∀ (bufs : List (List ℚ)) (fp : FilePlayback),
    fp.position + (bufs.map List.length).sum ≤ fp.samples.length →
    mixRun fp bufs =
      ({ fp with position := fp.position + (bufs.map List.length).sum },
       mixExpected fp.samples fp.volume fp.position bufs) := by
  intro bufs
  induction bufs with
  | nil =>
      intro fp _
      rw [mixRun]
      rfl
  | cons out rest ih =>
      intro fp h
      rw [mixRun]
      rw [mix_into_fill out fp (by simp only [List.map_cons, List.sum_cons] at h; omega)]
      rw [ih { fp with position := fp.position + out.length }
        (by simp only [List.map_cons, List.sum_cons] at h ⊢; omega)]
      simp only [mixExpected, List.map_cons, List.sum_cons, Prod.mk.injEq]
      rw [show fp.position + out.length + (rest.map List.length).sum
          = fp.position + (out.length + (rest.map List.length).sum) from by omega]
      simp

/-- C1 as amended: over a sequence of `mix_into` calls whose buffer lengths
total the sample sequence's length, each call adds `sample * volume` onto
the buffer contents already present and advances the cursor, and every
call — including the final, exactly-exhausting one — returns `true`; every
later call with a nonempty buffer returns `false` and leaves its buffer
untouched. -/
theorem mix_into_run_spec (fp : FilePlayback) (bufs : List (List ℚ))
    (hpos : fp.position = 0)
    (htot : (bufs.map List.length).sum = fp.samples.length) :
    (mixRun fp bufs).2 = mixExpected fp.samples fp.volume 0 bufs ∧
    (mixRun fp bufs).1.position = fp.samples.length ∧
    (∀ s rest, (mixRun fp bufs).1.mix_into (s :: rest) =
      ((mixRun fp bufs).1, s :: rest, false)) := by
  have hrun := mixRun_fill bufs fp (by omega)
  refine ⟨?_, ?_, ?_⟩
  · rw [hrun, hpos]
  · rw [hrun]
    show fp.position + (bufs.map List.length).sum = fp.samples.length
    omega
  · intro s rest
    apply mix_into_exhausted
    rw [hrun]
    show fp.samples.length ≤ fp.position + (bufs.map List.length).sum
    omega

/-- C1 witness: three samples at half gain, consumed by one two-slot call
and one one-slot call; both return `true`, contents are summed on top of
what was there, and a further call reports exhaustion. -/
theorem mix_into_run_spec_witness :
    ((⟨[2, 3, 4], 0, 1/2⟩ : FilePlayback).position = 0) ∧
    (([[0, 0], [10]] : List (List ℚ)).map List.length).sum =
      (⟨[2, 3, 4], 0, 1/2⟩ : FilePlayback).samples.length ∧
    ((mixRun ⟨[2, 3, 4], 0, 1/2⟩ [[0, 0], [10]]).2 =
        mixExpected [2, 3, 4] (1/2) 0 [[0, 0], [10]] ∧
      (mixRun ⟨[2, 3, 4], 0, 1/2⟩ [[0, 0], [10]]).1.position =
        (⟨[2, 3, 4], 0, 1/2⟩ : FilePlayback).samples.length ∧
      (∀ s rest, (mixRun ⟨[2, 3, 4], 0, 1/2⟩ [[0, 0], [10]]).1.mix_into (s :: rest) =
        ((mixRun ⟨[2, 3, 4], 0, 1/2⟩ [[0, 0], [10]]).1, s :: rest, false))) :=
  ⟨rfl, rfl, mix_into_run_spec ⟨[2, 3, 4], 0, 1/2⟩ [[0, 0], [10]] rfl rfl⟩

/-- C1 counterexample: a single call whose buffer length equals the sample
count (the claim's "final call").  The loop serves every slot and
completes, so the call returns `true`, not `false` as claimed; only the
next call reports exhaustion. -/
theorem mix_into_final_call_cex :
    ((⟨[1], 0, 1⟩ : FilePlayback).mix_into [0]).2.2 = true ∧
    ([0] : List ℚ).length = (⟨[1], 0, 1⟩ : FilePlayback).samples.length := by
  exact ⟨rfl, rfl⟩

/-! ## Render callback claims -/

/-- C3 as amended: per invocation the render callback (a) zeroes the buffer
(the output depends only on the incoming buffer's length), (b) returns
silence leaving all state untouched when paused, then pops mic samples
from the channel, mixes a present playback source on top (clearing the
slot exactly when `mix_into` reports exhaustion), multiplies by the master
volume unless it is within `f32::EPSILON` of 1.0, and clamps, so every
output sample lies in [-1, 1]. -/
theorem render_callback_spec (m : MixerModel) (data : List ℚ) :
    (∀ other : List ℚ, other.length = data.length →
        m.renderCallback other = m.renderCallback data) ∧
    (m.paused = true → m.renderCallback data = (m, List.replicate data.length 0)) ∧
    (∀ s ∈ (m.renderCallback data).2, -1 ≤ s ∧ s ≤ 1) ∧
    (m.paused = false →
        (m.renderCallback data).1 =
          { m with ring := (postMix m data.length).1.1,
                   file_playback := (postMix m data.length).1.2 } ∧
        (m.renderCallback data).2 = (postMix m data.length).2.map (fun s =>
            clampQ (if |m.volume - 1| > f32Epsilon then s * m.volume else s) (-1) 1) ∧
        (postMix m data.length).1.1 = (m.ring.pop (List.replicate data.length 0)).1) ∧
    (m.paused = false → m.playing = true → ∀ fp, m.file_playback = some fp →
        (postMix m data.length).1.2 =
          (if (fp.mix_into (m.ring.pop (List.replicate data.length 0)).2.1).2.2 = true
           then some (fp.mix_into (m.ring.pop (List.replicate data.length 0)).2.1).1
           else none) ∧
        (postMix m data.length).2 =
          (fp.mix_into (m.ring.pop (List.replicate data.length 0)).2.1).2.1) := by
  refine ⟨?_, ?_, ?_, ?_, ?_⟩
  · intro other hlen
    unfold MixerModel.renderCallback
    rw [hlen]
  · intro hp
    simp [MixerModel.renderCallback, hp]
  · intro s hs
    unfold MixerModel.renderCallback at hs
    cases hp : m.paused with
    | true =>
        rw [hp] at hs
        simp only [if_pos] at hs
        rw [List.eq_of_mem_replicate hs]
        norm_num
    | false =>
        rw [hp] at hs
        simp only [Bool.false_eq_true, if_neg] at hs
        obtain ⟨t, _, rfl⟩ := List.mem_map.mp hs
        exact clampQ_mem t (-1) 1 (by norm_num)
  · intro hp
    refine ⟨?_, ?_, ?_⟩
    · simp [MixerModel.renderCallback, hp]
    · show (if m.paused = true then (m, List.replicate data.length 0)
          else _).2 = _
      rw [hp]
      simp only [Bool.false_eq_true, if_neg, if_false]
      by_cases hc : |m.volume - 1| > f32Epsilon
      · simp only [if_pos hc, List.map_map]
        rfl
      · simp only [if_neg hc]
    · unfold postMix
      cases m.playing with
      | false => simp
      | true =>
          cases m.file_playback with
          | none => simp
          | some fp => simp
  · intro _ hpl fp hfp
    unfold postMix
    rw [hpl, hfp]
    exact ⟨rfl, rfl⟩

/-- A state used to exercise the paused branch of the render callback. -/
def pausedState : MixerModel :=
  { input_device_name := none, output_device_name := none,
    playing := false, paused := true, volume := 1,
    capture_stream := false, output_stream := false,
    ring := ⟨[1/2, 0], 1, 0⟩, file_playback := none }

/-- C3 witness: a paused mixer renders pure silence and is left untouched,
by the paused branch of the callback theorem. -/
theorem render_callback_spec_witness :
    pausedState.paused = true ∧
    pausedState.renderCallback [0, 0] = (pausedState, [0, 0]) :=
  ⟨rfl, (render_callback_spec pausedState [0, 0]).2.1 rfl⟩

/-- A state whose master volume is within `f32::EPSILON` of 1 without
being 1: reachable, since `set_volume` clamps only to [0, 1]. -/
def epsVolumeState : MixerModel :=
  { input_device_name := none, output_device_name := none,
    playing := false, paused := false, volume := 1 - 1/2^24,
    capture_stream := false, output_stream := false,
    ring := ⟨[1/2, 0], 1, 0⟩, file_playback := none }

/-- C3 counterexample: with master volume 1 − 2⁻²⁴ (within `f32::EPSILON`
of 1 but not exactly 1) and a mic sample of 1/2, the code skips the
multiply and outputs 1/2, whereas the claim requires the clamped product
`clampQ ((1 − 2⁻²⁴)·(1/2))`, a different value. -/
theorem render_volume_eps_cex :
    epsVolumeState.paused = false ∧
    epsVolumeState.volume = 1 - 1/2^24 ∧
    (epsVolumeState.renderCallback [0]).2 = [1/2] ∧
    clampQ (epsVolumeState.volume * (1/2)) (-1) 1 ≠ (1/2 : ℚ) := by
  refine ⟨rfl, rfl, ?_, ?_⟩
  · norm_num [epsVolumeState, MixerModel.renderCallback, postMix, RingBuffer.pop,
      RingBuffer.available, popAux, f32Epsilon, clampQ]
    rw [show |(1:ℚ)/16777216| = 1/16777216 from abs_of_nonneg (by norm_num)]
    norm_num
  · norm_num [epsVolumeState, clampQ]

/-! ## Control-plane claims -/

/-- C5: when decoding fails, `play_file` returns the error and the entire
mixer state — in particular the playing flag, the playback slot and the
master volume — is exactly as before the call. -/
theorem play_file_error_spec (env : Env) (m : MixerModel) (path : String)
    (v : ℚ) (e : String) (hdec : env.decode path = .error e) :
    m.play_file env path v = (m, .error e) ∧
    (m.play_file env path v).1.playing = m.playing ∧
    (m.play_file env path v).1.file_playback = m.file_playback ∧
    (m.play_file env path v).1.volume = m.volume := by
  simp only [MixerModel.play_file, hdec]
  exact ⟨trivial, trivial, trivial, trivial⟩

/-- An environment whose decode service always fails. -/
def decodeFailEnv : Env :=
  { dir := ⟨[], [], false, false⟩, capture_build := .ok (), output_build := .ok (),
    decode := fun _ => .error "Cannot open file: No such file or directory" }

/-- C5 witness: a failing `play` against the fresh mixer leaves it as
`MixerState::new` built it. -/
theorem play_file_error_spec_witness :
    decodeFailEnv.decode "a.wav" = .error "Cannot open file: No such file or directory" ∧
    (MixerModel.new.play_file decodeFailEnv "a.wav" 1 =
        (MixerModel.new, .error "Cannot open file: No such file or directory") ∧
      (MixerModel.new.play_file decodeFailEnv "a.wav" 1).1.playing = MixerModel.new.playing ∧
      (MixerModel.new.play_file decodeFailEnv "a.wav" 1).1.file_playback =
        MixerModel.new.file_playback ∧
      (MixerModel.new.play_file decodeFailEnv "a.wav" 1).1.volume = MixerModel.new.volume) :=
  ⟨rfl, play_file_error_spec decodeFailEnv MixerModel.new "a.wav" 1
    "Cannot open file: No such file or directory" rfl⟩

/-- C6: a `set_input_device` naming an unresolvable device answers with an
error whose text carries "not found", leaves the capture side with no
stream (torn down first), stores the requested name, and leaves every
other part of the mixer — output stream, flags, volume, playback slot,
ring — untouched. -/
theorem set_input_device_not_found_spec (env : Env) (m : MixerModel) (name : String)
    (h : env.dir.inputs.contains name = false) :
    (handle_command env m (.set_input_device name)).2 =
      some (.error ("Input device not found: " ++ name)) ∧
    "Input device not found: " = "Input device " ++ "not found" ++ ": " ∧
    (handle_command env m (.set_input_device name)).1.capture_stream = false ∧
    (handle_command env m (.set_input_device name)).1.output_stream = m.output_stream ∧
    (handle_command env m (.set_input_device name)).1.playing = m.playing ∧
    (handle_command env m (.set_input_device name)).1.paused = m.paused ∧
    (handle_command env m (.set_input_device name)).1.volume = m.volume ∧
    (handle_command env m (.set_input_device name)).1.file_playback = m.file_playback ∧
    (handle_command env m (.set_input_device name)).1.ring = m.ring ∧
    (handle_command env m (.set_input_device name)).1.output_device_name
      = m.output_device_name ∧
    (handle_command env m (.set_input_device name)).1.input_device_name = some name := by
  simp only [handle_command, MixerModel.start_capture, h]
  norm_num
  decide

/-- A directory that knows one microphone, used to miss a lookup. -/
def oneMicEnv : Env :=
  { dir := ⟨["Mic A"], ["Cable In"], true, true⟩,
    capture_build := .ok (), output_build := .ok (),
    decode := fun _ => .ok [] }

/-- C6 witness: asking the one-mic directory for "Nonexistent Mic". -/
theorem set_input_device_not_found_spec_witness :
    oneMicEnv.dir.inputs.contains "Nonexistent Mic" = false ∧
    ((handle_command oneMicEnv MixerModel.new (.set_input_device "Nonexistent Mic")).2 =
        some (.error ("Input device not found: " ++ "Nonexistent Mic")) ∧
      "Input device not found: " = "Input device " ++ "not found" ++ ": " ∧
      (handle_command oneMicEnv MixerModel.new
        (.set_input_device "Nonexistent Mic")).1.capture_stream = false ∧
      (handle_command oneMicEnv MixerModel.new
        (.set_input_device "Nonexistent Mic")).1.output_stream = MixerModel.new.output_stream ∧
      (handle_command oneMicEnv MixerModel.new
        (.set_input_device "Nonexistent Mic")).1.playing = MixerModel.new.playing ∧
      (handle_command oneMicEnv MixerModel.new
        (.set_input_device "Nonexistent Mic")).1.paused = MixerModel.new.paused ∧
      (handle_command oneMicEnv MixerModel.new
        (.set_input_device "Nonexistent Mic")).1.volume = MixerModel.new.volume ∧
      (handle_command oneMicEnv MixerModel.new
        (.set_input_device "Nonexistent Mic")).1.file_playback = MixerModel.new.file_playback ∧
      (handle_command oneMicEnv MixerModel.new
        (.set_input_device "Nonexistent Mic")).1.ring = MixerModel.new.ring ∧
      (handle_command oneMicEnv MixerModel.new
        (.set_input_device "Nonexistent Mic")).1.output_device_name
        = MixerModel.new.output_device_name ∧
      (handle_command oneMicEnv MixerModel.new
        (.set_input_device "Nonexistent Mic")).1.input_device_name
        = some "Nonexistent Mic") :=
  ⟨rfl, set_input_device_not_found_spec oneMicEnv MixerModel.new "Nonexistent Mic" rfl⟩

/-- C7: the status query's playing value is the conjunction "flag set and
slot occupied"; when the flag is stale (set with an empty slot) it is
corrected to `false` in the stored state, everything else being left
untouched; and `get_status` reports exactly that reconciled value. -/
theorem is_playing_spec (env : Env) (m : MixerModel) :
    m.is_playing.2 = (m.playing && m.file_playback.isSome) ∧
    m.is_playing.1 = { m with playing := m.playing && m.file_playback.isSome } ∧
    (handle_command env m .get_status).2 =
      some (.status (m.playing && m.file_playback.isSome) m.paused m.volume
        m.input_device_name m.output_device_name) := by
  cases m with
  | mk inNm outNm playing paused vol cap outp ring fpb =>
      cases playing <;> cases fpb <;>
        simp [MixerModel.is_playing, handle_command]

/-- C8: a malformed input line yields exactly one error response carrying
the parse failure, and the session continues on the remaining lines in the
same state — so a well-formed command sent right after is processed as it
would have been without the malformed line. -/
theorem malformed_line_spec (env : Env) (m : MixerModel) (e : String)
    (rest : List InLine) :
    processLines env m (.malformed e :: rest) =
      Response.error ("Invalid JSON command: " ++ e) :: processLines env m rest := by
  rw [processLines]

/-- C9: `set_volume` stores `clamp(v, 0, 1)`, always landing in [0, 1]; in
particular −1 is stored as 0 and 5 as 1. -/
theorem set_volume_spec (m : MixerModel) (v : ℚ) :
    (m.set_volume v).volume = clampQ v 0 1 ∧
    0 ≤ (m.set_volume v).volume ∧
    (m.set_volume v).volume ≤ 1 ∧
    (m.set_volume (-1)).volume = 0 ∧
    (m.set_volume 5).volume = 1 := by
  refine ⟨rfl, (clampQ_mem v 0 1 (by norm_num)).1, (clampQ_mem v 0 1 (by norm_num)).2,
    ?_, ?_⟩
  · norm_num [MixerModel.set_volume, clampQ]
  · norm_num [MixerModel.set_volume, clampQ]

/-- C10: `Stop`, `Pause`, `Resume` and `SetVolume` always answer `ok`,
whatever the mixer state or argument — stopping when nothing plays and
out-of-range volumes included. -/
theorem transport_commands_ok (env : Env) (m : MixerModel) (v : ℚ) :
    (handle_command env m .stop).2 = some .ok ∧
    (handle_command env m .pause).2 = some .ok ∧
    (handle_command env m .resume).2 = some .ok ∧
    (handle_command env m (.set_volume v)).2 = some .ok :=
  ⟨rfl, rfl, rfl, rfl⟩

end RagePad
